import Mathlib

/-!
Verification of the transmission peer engine (peer-msgs / peer-mgr layers)
against its natural-language specification.  Each section shallowly embeds
the C functions named in the claims; machine integers are modelled as `Nat`
or `Int`, arrays as `List`, and external collaborators (completion store,
history rings, piece replication) as explicit function parameters.
-/

/-! ## Wire message ids and the incoming-message state machine (peer-msgs) -/

def BT_CHOKE : Nat := 0
def BT_UNCHOKE : Nat := 1
def BT_INTERESTED : Nat := 2
def BT_NOT_INTERESTED : Nat := 3
def BT_HAVE : Nat := 4
def BT_BITFIELD : Nat := 5
def BT_REQUEST : Nat := 6
def BT_PIECE : Nat := 7
def BT_CANCEL : Nat := 8
def BT_PORT : Nat := 9
def BT_FEXT_SUGGEST : Nat := 13
def BT_FEXT_HAVE_ALL : Nat := 14
def BT_FEXT_HAVE_NONE : Nat := 15
def BT_FEXT_REJECT : Nat := 16
def BT_FEXT_ALLOWED_FAST : Nat := 17
def BT_LTEP : Nat := 20

/-- The four states of the incoming-message parser
(`AWAITING_BT_LENGTH .. AWAITING_BT_PIECE`). -/
inductive PMState where
  | awaitingBtLength
  | awaitingBtId
  | awaitingBtMessage
  | awaitingBtPiece
deriving DecidableEq

/-- Return values of the read callbacks (`READ_NOW`, `READ_LATER`, `READ_ERR`). -/
inductive ReadRes where
  | readNow
  | readLater
  | readErr
deriving DecidableEq

/-- The torrent-side context consulted by `messageLengthIsCorrect`:
whether metadata is known, the piece count, and the peer's advertised
metadata-size hint. -/
structure MsgCfg where
  hasMetadata : Bool
  pieceCount : Nat
  metadataSizeHint : Nat

/-- `messageLengthIsCorrect (msg, id, len)`: per-id validation of the wire
length value `len` (the 4-byte length prefix, which counts the id byte plus
the body). -/
def messageLengthIsCorrect (cfg : MsgCfg) (id : Nat) (len : Nat) : Bool :=
  match id with
  | 0 | 1 | 2 | 3 | 14 | 15 => len == 1     -- choke/unchoke/(not)interested/have-all/have-none
  | 4 | 13 | 17 => len == 5                 -- have/suggest/allowed-fast
  | 5 =>                                    -- bitfield
    if cfg.hasMetadata then len == (cfg.pieceCount + 7) / 8 + 1
    else if cfg.metadataSizeHint > 0 then decide (len ≤ cfg.metadataSizeHint)
    else true
  | 6 | 8 | 16 => len == 13                 -- request/cancel/reject
  | 7 => decide (9 < len) && decide (len ≤ 16393)  -- piece: len > 9 && len <= 16393
  | 9 => len == 3                           -- port
  | 20 => decide (2 ≤ len)                  -- ltep
  | _ => false

/-- Result of one read-callback step: the parser state afterwards, the
callback's return value, and whether a size error (`EMSGSIZE` via
`fireError`) was raised. -/
structure BtReadOutcome where
  state : PMState
  res : ReadRes
  sizeError : Bool
deriving DecidableEq

/-- The entry gate of `readBtMessage`: the wire length (`msglen + 1` where
`msglen` is the body length) is checked with `messageLengthIsCorrect`; a
failure fires `EMSGSIZE` and returns `READ_ERR`, otherwise the message body
is consumed and the parser returns to `AWAITING_BT_LENGTH`.  The per-id body
handling between the gate and the final state reset mutates peer state that
is orthogonal to message-length acceptance and is not modelled. -/
def readBtMessage (cfg : MsgCfg) (cur : PMState) (length id : Nat) : BtReadOutcome :=
  let msglen := length - 1
  if !(messageLengthIsCorrect cfg id (msglen + 1)) then
    { state := cur, res := ReadRes.readErr, sizeError := true }
  else
    { state := PMState.awaitingBtLength, res := ReadRes.readNow, sizeError := false }

/-- `readBtId`, reached with `incoming.length = length` after the id byte
`id` has been read.  A `BT_PIECE` id moves straight to `AWAITING_BT_PIECE`;
otherwise a body longer than the id byte moves to `AWAITING_BT_MESSAGE`, and
a bare one-byte message is handed to `readBtMessage` at once. -/
def readBtId (cfg : MsgCfg) (cur : PMState) (length id : Nat) : BtReadOutcome :=
  if id = BT_PIECE then
    { state := PMState.awaitingBtPiece, res := ReadRes.readNow, sizeError := false }
  else if length ≠ 1 then
    { state := PMState.awaitingBtMessage, res := ReadRes.readNow, sizeError := false }
  else
    readBtMessage cfg cur length id

/-! ## Incoming Request handling (`peerMadeRequest`) -/

def REQQ : Nat := 512

/-- An incoming block request `{index, offset, length}`. -/
structure peer_request where
  index : Nat
  offset : Nat
  length : Nat
deriving DecidableEq

/-- What became of an incoming Request. -/
inductive ReqOutcome where
  | allowed
  | dropped
  | rejected
deriving DecidableEq

/-- `peerMadeRequest`: the request is queued on `peerAskedFor` iff it is
valid, the client has the piece, the peer is unchoked and
`pendingReqsToClient + 1 >= REQQ` does not hold; on refusal a Fast-Extension
peer gets a Reject, anyone else silence.  `peerAskedFor.length` plays
`pendingReqsToClient`. -/
def peerMadeRequest (fext reqIsValid clientHasPiece peerIsChoked : Bool)
    (peerAskedFor : List peer_request) (req : peer_request) :
    List peer_request × ReqOutcome :=
  let allow : Bool :=
    if !reqIsValid then false
    else if !clientHasPiece then false
    else if peerIsChoked then false
    else if peerAskedFor.length + 1 ≥ REQQ then false
    else true
  if allow then (peerAskedFor ++ [req], ReqOutcome.allowed)
  else if fext then (peerAskedFor, ReqOutcome.rejected)
  else (peerAskedFor, ReqOutcome.dropped)

/-! ## Claim theorems for C1 and C2 -/

/-- Claim C1 counterexample: an incoming Piece message whose wire length is
16,394 is not failed with a size error — `readBtId` special-cases
`BT_PIECE` into the piece-reading state before any call to
`messageLengthIsCorrect`, so the parser accepts it and starts streaming the
payload. -/
theorem C1_counterexample :
    readBtId ⟨false, 0, 0⟩ PMState.awaitingBtId 16394 BT_PIECE =
      { state := PMState.awaitingBtPiece, res := ReadRes.readNow, sizeError := false } := by
  decide

/-- Claim C1, amended: `messageLengthIsCorrect` classifies a Piece wire
length as correct exactly when it is greater than 9 and at most 16,393, but
incoming Piece messages bypass this check: `readBtId` always enters the
piece-reading state for id `BT_PIECE`, raising no size error whatever the
length. -/
theorem C1_amended (cfg : MsgCfg) (cur : PMState) (len : Nat) :
    messageLengthIsCorrect cfg BT_PIECE len = (decide (9 < len) && decide (len ≤ 16393)) ∧
    readBtId cfg cur len BT_PIECE =
      { state := PMState.awaitingBtPiece, res := ReadRes.readNow, sizeError := false } := by
  constructor
  · rfl
  · rfl

/-- Claim C2 counterexample: with 511 requests already pending — fewer than
512, so the claim demands acceptance — a valid request from an unchoked peer
for a piece we have is refused (`pendingReqsToClient + 1 >= REQQ`) and, with
no Fast Extension, silently dropped. -/
theorem C2_counterexample :
    (List.replicate 511 (⟨0, 0, 16384⟩ : peer_request)).length < 512 ∧
    peerMadeRequest false true true false
        (List.replicate 511 (⟨0, 0, 16384⟩ : peer_request)) ⟨0, 0, 16384⟩ =
      (List.replicate 511 (⟨0, 0, 16384⟩ : peer_request), ReqOutcome.dropped) := by
  constructor
  · rw [List.length_replicate]
    norm_num
  · generalize hq : List.replicate 511 (⟨0, 0, 16384⟩ : peer_request) = q
    have hlen : q.length = 511 := by rw [← hq, List.length_replicate]
    simp [peerMadeRequest, REQQ, hlen]

/-- Claim C2, amended: the request is appended iff it is inside the torrent,
the piece is complete, the peer is unchoked and the queue holds at most 510
pending requests (so the queue tops out at 511 entries, not 512); otherwise
the queue is unchanged and the request is Rejected when the peer supports
the Fast Extension and silently dropped when it does not. -/
theorem C2_amended (fext reqIsValid clientHasPiece peerIsChoked : Bool)
    (q : List peer_request) (r : peer_request) :
    peerMadeRequest fext reqIsValid clientHasPiece peerIsChoked q r =
      if reqIsValid && clientHasPiece && !peerIsChoked && decide (q.length + 1 < REQQ) then
        (q ++ [r], ReqOutcome.allowed)
      else (q, if fext then ReqOutcome.rejected else ReqOutcome.dropped) := by
  unfold peerMadeRequest REQQ
  by_cases h : q.length + 1 < 512
  · have h2 : ¬ (q.length + 1 ≥ 512) := by omega
    cases reqIsValid <;> cases clientHasPiece <;> cases peerIsChoked <;> cases fext <;>
      simp [h, h2]
  · have h2 : q.length + 1 ≥ 512 := by omega
    cases reqIsValid <;> cases clientHasPiece <;> cases peerIsChoked <;> cases fext <;>
      simp [h, h2]

/-! ## Endgame detection (`testForEndgame` / `updateEndgame`, peer-mgr) -/

/-- The per-torrent view read by `updateEndgame`: the request-ledger size,
the torrent's block size and bytes left (`tr_cpLeftUntilDone`), each
connected peer's `pendingReqsToPeer`, and the number of active webseeds
(`countActiveWebseeds`). -/
structure EndgameView where
  requestCount : Nat
  blockSize : Nat
  leftUntilDone : Nat
  pendingReqsToPeer : List Nat
  activeWebseedCount : Nat

/-- `testForEndgame`: requested bytes cover what is left to download. -/
def testForEndgame (t : EndgameView) : Bool :=
  decide (t.requestCount * t.blockSize ≥ t.leftUntilDone)

/-- `updateEndgame` recomputes the endgame factor `t->endgame`: zero outside
the endgame condition; on entering it (factor currently zero) the request
count divided by the number of actively-downloading peers
(`pendingReqsToPeer > 0`) plus active webseeds, floored at one. -/
def updateEndgame (t : EndgameView) (endgame : Nat) : Nat :=
  if !(testForEndgame t) then 0
  else if endgame ≠ 0 then endgame
  else
    let numDownloading :=
      t.pendingReqsToPeer.countP (fun n => decide (0 < n)) + t.activeWebseedCount
    t.requestCount / max numDownloading 1

/-- Claim C4: the endgame predicate holds exactly when outstanding requests
times the block size reach the bytes left; a tick outside the condition
zeroes the factor, and the next tick inside it (the tick where the predicate
first becomes true) sets the factor to the outstanding request count divided
by `max 1 (actively-downloading peers + active webseeds)`. -/
theorem C4_endgame (t₁ t₂ : EndgameView) (e : Nat)
    (h₁ : testForEndgame t₁ = false) (h₂ : testForEndgame t₂ = true) :
    (testForEndgame t₂ = true ↔ t₂.leftUntilDone ≤ t₂.requestCount * t₂.blockSize) ∧
    updateEndgame t₁ e = 0 ∧
    updateEndgame t₂ (updateEndgame t₁ e) =
      t₂.requestCount /
        max 1 (t₂.pendingReqsToPeer.countP (fun n => decide (0 < n)) + t₂.activeWebseedCount) := by
  refine ⟨by simp [testForEndgame, ge_iff_le], ?_, ?_⟩
  · simp [updateEndgame, h₁]
  · simp [updateEndgame, h₁, h₂, Nat.max_comm]

/-- Witness for C4: a torrent with no requests and 100 bytes left is outside
the endgame; one with 6 outstanding requests of 16 KiB and 3 bytes left
enters it with two busy peers and one active webseed, so the factor becomes
`6 / 3 = 2`. -/
theorem C4_endgame_witness :
    updateEndgame ⟨0, 16384, 100, [], 0⟩ 5 = 0 ∧
    updateEndgame ⟨6, 16384, 3, [3, 0, 2], 1⟩ (updateEndgame ⟨0, 16384, 100, [], 0⟩ 5) = 2 := by
  have h := C4_endgame ⟨0, 16384, 100, [], 0⟩ ⟨6, 16384, 3, [3, 0, 2], 1⟩ 5
      (by decide) (by decide)
  refine ⟨h.2.1, ?_⟩
  rw [h.2.2]
  decide

/-! ## Request selection (inner loop of `tr_peerMgrGetNextRequests`) -/

/-- Decision taken by the block loop of `tr_peerMgrGetNextRequests` for a
wanted, not-yet-complete block: `requesters` is the peer list returned by
`getBlockRequestPeers`, `candidate` the asking peer, `pendingReqsToPeer` its
outstanding count, and `numwant - got` the number of blocks still wanted in
this call.  The function returns whether the block is assigned (requested)
rather than skipped. -/
def nextRequestBlockAllowed (endgame : Nat) (requesters : List Nat)
    (candidate pendingReqsToPeer numwant got : Nat) : Bool :=
  match requesters with
  | [] => true
  | first :: rest =>
    -- don't make a second block request until the endgame
    if endgame = 0 then false
    -- don't have more than two peers requesting this block
    else if 1 < (first :: rest).length then false
    -- don't send the same request to the same peer twice
    else if candidate = first then false
    -- only if the peer seems to be handling requests relatively fast
    else if pendingReqsToPeer + (numwant - got) < endgame then false
    else true

/-- Claim C5: a block with at least one outstanding request is skipped
whenever the torrent is not in endgame, or it already has more than one
requester, or the candidate's pending count plus the blocks still wanted
falls short of the endgame factor; and there are inputs where the remaining
conditions hold and a duplicate request is actually produced. -/
theorem C5_endgame_duplicates :
    (∀ (endgame : Nat) (requesters : List Nat) (candidate pending numwant got : Nat),
        requesters ≠ [] →
        (endgame = 0 ∨ 1 < requesters.length ∨ pending + (numwant - got) < endgame) →
        nextRequestBlockAllowed endgame requesters candidate pending numwant got = false) ∧
    nextRequestBlockAllowed 2 [7] 3 5 4 0 = true := by
  constructor
  · intro endgame requesters candidate pending numwant got hne hskip
    rcases requesters with _ | ⟨first, rest⟩
    · exact absurd rfl hne
    · simp only [nextRequestBlockAllowed]
      split_ifs with h1 h2 h3 h4
      · rfl
      · rfl
      · rfl
      · rfl
      · exfalso
        simp only [List.length_cons] at h2 hskip
        omega
  · decide

/-- Witness for C5: out of endgame the block with requester 7 is skipped;
in endgame with factor 2, candidate 3 (5 pending, 4 still wanted) is allowed
to duplicate the request held by peer 7. -/
theorem C5_endgame_duplicates_witness :
    nextRequestBlockAllowed 0 [7] 3 5 4 0 = false ∧
    nextRequestBlockAllowed 2 [7] 3 5 4 0 = true :=
  ⟨C5_endgame_duplicates.1 0 [7] 3 5 4 0 (by decide) (Or.inl rfl),
   C5_endgame_duplicates.2⟩

/-! ## Choke fibrillation guard (`tr_peerMsgsSetChoke`) -/

def MIN_CHOKE_PERIOD_SEC : Int := 10

/-- The per-peer state read and written by `tr_peerMsgsSetChoke`: the
outgoing choke flag and the time it last changed.  (On an actual choke the
queue of requests the peer made is also flushed by
`cancelAllRequestsToClient`; that queue is modelled with `peerMadeRequest`
above and does not interact with the fibrillation guard.) -/
structure ChokeState where
  peerIsChoked : Bool
  chokeChangedAt : Int
deriving DecidableEq

/-- `tr_peerMsgsSetChoke` at wall-clock `now`: inside the fibrillation
window the call is ignored; otherwise a differing value is stored,
a Choke/Unchoke message is emitted (returned as `some peerIsChoked`) and
`chokeChangedAt` is set to `now`. -/
def tr_peerMsgsSetChoke (now : Int) (peerIsChoked : Bool) (s : ChokeState) :
    ChokeState × Option Bool :=
  let fibrillationTime := now - MIN_CHOKE_PERIOD_SEC
  if s.chokeChangedAt > fibrillationTime then (s, none)
  else if s.peerIsChoked ≠ peerIsChoked then
    ({ peerIsChoked := peerIsChoked, chokeChangedAt := now }, some peerIsChoked)
  else (s, none)

/-- Run a list of `(now, wanted choke state)` calls through
`tr_peerMsgsSetChoke`, collecting the emitted Choke/Unchoke messages with
their timestamps. -/
def runSetChoke (s : ChokeState) : List (Int × Bool) → List (Int × Bool)
  | [] => []
  | (now, want) :: rest =>
    match tr_peerMsgsSetChoke now want s with
    | (s1, some m) => (now, m) :: runSetChoke s1 rest
    | (s1, none) => runSetChoke s1 rest

/-- Every message emitted by a run comes at least a full choke period after
the initial `chokeChangedAt`, and consecutive emitted messages are at least
a full choke period apart. -/
theorem runSetChoke_spaced (calls : List (Int × Bool)) (s : ChokeState) :
    (∀ x ∈ runSetChoke s calls, s.chokeChangedAt + MIN_CHOKE_PERIOD_SEC ≤ x.1) ∧
    List.Chain' (fun a b : Int × Bool => a.1 + MIN_CHOKE_PERIOD_SEC ≤ b.1)
      (runSetChoke s calls) := by
  have hM : MIN_CHOKE_PERIOD_SEC = 10 := rfl
  induction calls generalizing s with
  | nil =>
    constructor
    · intro x hx
      simp [runSetChoke] at hx
    · simp [runSetChoke]
  | cons c rest ih =>
    obtain ⟨now, want⟩ := c
    by_cases hg : s.chokeChangedAt > now - MIN_CHOKE_PERIOD_SEC
    · have hstep : tr_peerMsgsSetChoke now want s = (s, none) := by
        simp [tr_peerMsgsSetChoke, hg]
      rw [runSetChoke, hstep]
      exact ih s
    · by_cases hd : s.peerIsChoked = want
      · have hstep : tr_peerMsgsSetChoke now want s = (s, none) := by
          simp [tr_peerMsgsSetChoke, hg, hd]
        rw [runSetChoke, hstep]
        exact ih s
      · have hstep : tr_peerMsgsSetChoke now want s =
            ({ peerIsChoked := want, chokeChangedAt := now }, some want) := by
          simp [tr_peerMsgsSetChoke, hg, hd]
        rw [runSetChoke, hstep]
        have ih2 := ih { peerIsChoked := want, chokeChangedAt := now }
        simp only at ih2 ⊢
        constructor
        · intro x hx
          rcases List.mem_cons.1 hx with rfl | hx
          · simp only
            omega
          · have hb := ih2.1 x hx
            simp only at hb
            omega
        · refine List.chain'_cons'.2 ⟨?_, ih2.2⟩
          intro y hy
          have hb := ih2.1 y (List.mem_of_mem_head? hy)
          simp only at hb
          omega

/-- Claim C10: a choke-setting call made less than `MIN_CHOKE_PERIOD_SEC`
seconds after the last change leaves the state untouched and emits nothing
(the request is dropped, not deferred); consequently, over any call
sequence, consecutive emitted choke changes are at least 10 seconds apart,
so the outgoing choke state never changes twice inside a 10-second window. -/
theorem C10_choke_period :
    (∀ (s : ChokeState) (now : Int) (want : Bool),
        now - s.chokeChangedAt < MIN_CHOKE_PERIOD_SEC →
        tr_peerMsgsSetChoke now want s = (s, none)) ∧
    (∀ (s : ChokeState) (calls : List (Int × Bool)),
        List.Chain' (fun a b : Int × Bool => a.1 + MIN_CHOKE_PERIOD_SEC ≤ b.1)
          (runSetChoke s calls)) := by
  constructor
  · intro s now want h
    have hg : s.chokeChangedAt > now - MIN_CHOKE_PERIOD_SEC := by omega
    simp [tr_peerMsgsSetChoke, hg]
  · intro s calls
    exact (runSetChoke_spaced calls s).2

/-- Witness for C10: five seconds after an unchoke at time 0, a request to
choke is dropped outright. -/
theorem C10_choke_period_witness :
    tr_peerMsgsSetChoke 5 true ⟨false, 0⟩ = (⟨false, 0⟩, none) :=
  C10_choke_period.1 ⟨false, 0⟩ 5 true (by decide)

/-! ## PEX compact encoding (`sendPex` / `tr_peerMgrCompactToPex`) -/

def ADDED_F_HOLEPUNCH : Nat := 8

/-- An IPv4 `tr_pex` entry: four address bytes, two port bytes (already in
network order, as the C code memcpy-s them verbatim), and the uint8 flags. -/
structure tr_pex where
  addr0 : Nat
  addr1 : Nat
  addr2 : Nat
  addr3 : Nat
  port0 : Nat
  port1 : Nat
  flags : Nat
deriving DecidableEq

/-- The `added` blob built by `sendPex`: 6 bytes per entry, 4 of address
followed by 2 of port. -/
def sendPexAdded : List tr_pex → List Nat
  | [] => []
  | p :: rest =>
    p.addr0 :: p.addr1 :: p.addr2 :: p.addr3 :: p.port0 :: p.port1 :: sendPexAdded rest

/-- The `added.f` blob built by `sendPex`: one flags byte per added entry
with the holepunch bit cleared (`flags & ~ADDED_F_HOLEPUNCH`; on a uint8
this is a mask with `255 - ADDED_F_HOLEPUNCH = 247`). -/
def sendPexAddedF : List tr_pex → List Nat
  | [] => []
  | p :: rest => Nat.land p.flags (255 - ADDED_F_HOLEPUNCH) :: sendPexAddedF rest

/-- The walking loop of `tr_peerMgrCompactToPex`: consume 6-byte records;
the flags byte is taken from `added_f` only when its length matched the
record count (`useFlags`), otherwise the `tr_new0` zero-fill is kept. -/
def compactToPexLoop (useFlags : Bool) : List Nat → List Nat → List tr_pex
  | a0 :: a1 :: a2 :: a3 :: p0 :: p1 :: rest, fs =>
    { addr0 := a0, addr1 := a1, addr2 := a2, addr3 := a3, port0 := p0, port1 := p1,
      flags := if useFlags then fs.headD 0 else 0 } :: compactToPexLoop useFlags rest (fs.drop 1)
  | _, _ => []

/-- `tr_peerMgrCompactToPex`: split a compact blob into `compactLen / 6`
IPv4+port records, applying `added_f` when `added_f_len` equals the record
count. -/
def tr_peerMgrCompactToPex (compact added_f : List Nat) : List tr_pex :=
  compactToPexLoop (added_f.length == compact.length / 6) compact added_f

theorem sendPexAdded_length (l : List tr_pex) : (sendPexAdded l).length = 6 * l.length := by
  induction l with
  | nil => rfl
  | cons p rest ih =>
    simp [sendPexAdded, ih]
    omega

theorem sendPexAddedF_length (l : List tr_pex) : (sendPexAddedF l).length = l.length := by
  induction l with
  | nil => rfl
  | cons p rest ih => simp [sendPexAddedF, ih]

theorem compactToPexLoop_roundTrip (l : List tr_pex) :
    compactToPexLoop true (sendPexAdded l) (sendPexAddedF l) =
      l.map (fun p => { p with flags := Nat.land p.flags (255 - ADDED_F_HOLEPUNCH) }) := by
  induction l with
  | nil => rfl
  | cons p rest ih =>
    simp only [sendPexAdded, sendPexAddedF, compactToPexLoop, List.headD, List.drop, List.map,
      if_true, ih]

/-- Claim C8: decoding the `added` blob of a PEX message with its `added.f`
flags recovers the original entries — addresses and ports verbatim, flags
with the holepunch bit cleared — so every non-holepunch flag bit survives
the round trip. -/
theorem C8_pex_roundtrip (added : List tr_pex) :
    tr_peerMgrCompactToPex (sendPexAdded added) (sendPexAddedF added) =
      added.map (fun p => { p with flags := Nat.land p.flags (255 - ADDED_F_HOLEPUNCH) }) ∧
    (tr_peerMgrCompactToPex (sendPexAdded added) (sendPexAddedF added)).map tr_pex.flags =
      added.map (fun p => Nat.land p.flags (255 - ADDED_F_HOLEPUNCH)) := by
  have huse : ((sendPexAddedF added).length == (sendPexAdded added).length / 6) = true := by
    rw [sendPexAddedF_length, sendPexAdded_length]
    simp [Nat.mul_div_cancel_left]
  have hdec : tr_peerMgrCompactToPex (sendPexAdded added) (sendPexAddedF added) =
      added.map (fun p => { p with flags := Nat.land p.flags (255 - ADDED_F_HOLEPUNCH) }) := by
    rw [tr_peerMgrCompactToPex, huse, compactToPexLoop_roundTrip]
  refine ⟨hdec, ?_⟩
  rw [hdec, List.map_map]
  rfl

/-! ## transmission-edit: the per-file changed flag (edit.c) -/

/-- The slice of a torrent's metainfo dictionary that `transmission-edit`
manipulates: the `announce` string and the `announce-list` list of tiers. -/
structure Metainfo where
  announce : Option String
  announceList : Option (List (List String))
deriving DecidableEq

/-- The `announce-list` walk of `removeURL`: drop every node equal to `url`
(the inner while loop), then drop tiers left empty; `changed` records
whether any node was removed. -/
def removeURLFromTiers (url : String) (tiers : List (List String)) :
    List (List String) × Bool :=
  let filtered := (tiers.map (fun tier => tier.filter (fun s => !(s == url)))).filter
    (fun tier => !tier.isEmpty)
  let changed := tiers.any (fun tier => tier.any (fun s => s == url))
  (filtered, changed)

/-- `removeURL`: drop a matching `announce`, scrub the `announce-list`
(removing it outright when no tiers remain), and, when something was removed
and `announce` is gone, promote the first remaining list entry back into
`announce`.  (When nothing remains the C code reads a freed or uninitialized
`announce_list` pointer; that undefined path is modelled as no promotion.) -/
def removeURL (m : Metainfo) (url : String) : Metainfo × Bool :=
  let step1 : Metainfo × Bool :=
    match m.announce with
    | some s =>
      if s == url then ({ announce := none, announceList := m.announceList }, true)
      else (m, false)
    | none => (m, false)
  let step2 : Metainfo × Bool :=
    match step1.1.announceList with
    | some tiers =>
      let r := removeURLFromTiers url tiers
      ({ announce := step1.1.announce,
         announceList := if r.1.isEmpty then none else some r.1 }, step1.2 || r.2)
    | none => step1
  if step2.2 && step2.1.announce.isNone then
    match step2.1.announceList with
    | some ((s :: _) :: _) => ({ announce := some s, announceList := step2.1.announceList }, step2.2)
    | _ => step2
  else step2

/-- `announce_list_has_url`. -/
def announce_list_has_url (tiers : List (List String)) (url : String) : Bool :=
  tiers.any (fun tier => tier.any (fun s => s == url))

/-- `addURL`: with neither `announce` nor `announce-list`, the URL becomes
`announce`; otherwise a missing `announce-list` is created (migrating the
old `announce` into its first tier) and the URL is appended as a new tier
unless already present. -/
def addURL (m : Metainfo) (url : String) : Metainfo × Bool :=
  match m.announce, m.announceList with
  | none, none => ({ announce := some url, announceList := none }, true)
  | ann, list =>
    let start : List (List String) × Bool :=
      match list, ann with
      | some ts, _ => (ts, false)
      | none, some a => ([[a]], true)
      | none, none => ([], false)
    if !(announce_list_has_url start.1 url) then
      ({ announce := ann, announceList := some (start.1 ++ [[url]]) }, true)
    else
      ({ announce := ann, announceList := some start.1 }, start.2)

/-- The per-file loop of `transmission-edit`'s `main` for the `-d`/`-a`
options: `changed` is OR-ed with `removeURL`'s result but then overwritten
by plain assignment with `addURL`'s result (`changed = addURL (&top, add)`);
the file is rewritten only when the final flag is true.  The independent
`-r` replace branch is not modelled. -/
def editTorrentFile (deleteme add : Option String) (top : Metainfo) : Metainfo × Bool :=
  let changed := false
  let step1 : Metainfo × Bool :=
    match deleteme with
    | some d =>
      let r := removeURL top d
      (r.1, changed || r.2)
    | none => (top, changed)
  let step2 : Metainfo × Bool :=
    match add with
    | some a =>
      let r := addURL step1.1 a
      (r.1, r.2)
    | none => step1
  step2

/-- Claim C9: with both a delete and an add URL, the flag after the add step
is exactly `addURL`'s return value — a prior `true` from `removeURL` is
discarded — and on a concrete torrent (announce `A`, tiers `[[A], [B]]`,
run with `-d A -a B`) the removal succeeds yet the final flag is false, so
the modified file would not be written back. -/
theorem C9_changed_overwritten :
    (∀ (top : Metainfo) (d a : String),
        (editTorrentFile (some d) (some a) top).2 = (addURL (removeURL top d).1 a).2) ∧
    (removeURL ⟨some "udp://A", some [["udp://A"], ["udp://B"]]⟩ "udp://A").2 = true ∧
    (editTorrentFile (some "udp://A") (some "udp://B")
        ⟨some "udp://A", some [["udp://A"], ["udp://B"]]⟩).2 = false := by
  refine ⟨fun top d a => rfl, ?_, ?_⟩
  · decide
  · decide

/-! ## Timed request cancellation (`refillUpkeep`, peer-mgr) -/

def REQUEST_TTL_SECS : Int := 120

/-- The piece/block geometry of a torrent needed by `_tr_block`. -/
structure TorLayout where
  blockCountInPiece : Nat
  blockSize : Nat

/-- Modelled from the spec: `_tr_block` (declared in torrent.h, which is not
among the provided sources) maps a piece index and byte offset to the global
index of the fixed-size block containing it — blocks are numbered
consecutively, `blockCountInPiece` per piece, `blockSize` bytes each
(§3 "Piece / block" of the glossary). -/
def _tr_block (tor : TorLayout) (index offset : Nat) : Nat :=
  index * tor.blockCountInPiece + offset / tor.blockSize

/-- The slice of a wire session read by `tr_peerMsgsIsReadingBlock`: the
parser state and the piece index / offset of `incoming.blockReq`. -/
structure PeerMsgsView where
  state : PMState
  incomingIndex : Nat
  incomingOffset : Nat
deriving DecidableEq

/-- `tr_peerMsgsIsReadingBlock`: true only when the parser is mid-way
through a Piece payload and that payload is this very block. -/
def tr_peerMsgsIsReadingBlock (tor : TorLayout) (m : PeerMsgsView) (block : Nat) : Bool :=
  if m.state ≠ PMState.awaitingBtPiece then false
  else block == _tr_block tor m.incomingIndex m.incomingOffset

/-- A request-ledger entry `struct block_request` (the peer represented by
a numeric id). -/
structure block_request where
  block : Nat
  peerId : Nat
  sentAt : Int
deriving DecidableEq

/-- The selection test of `refillUpkeep`'s pruning loop: the entry goes to
the `cancel` buffer iff it is old enough, its peer has a wire session
(`it->peer->msgs`), and that session is not mid-way through reading this
very block. -/
def refillCancelTest (now : Int) (msgsOf : Nat → Option PeerMsgsView) (tor : TorLayout)
    (r : block_request) : Bool :=
  decide (r.sentAt ≤ now - REQUEST_TTL_SECS) &&
    (match msgsOf r.peerId with
     | some m => !(tr_peerMsgsIsReadingBlock tor m r.block)
     | none => false)

/-- What one torrent's pass of `refillUpkeep` does: the compacted ledger,
the cancel buffer, the `Cancel(peer, block)` messages sent via
`tr_peerMsgsCancel`, the peers whose `cancelsSentToPeer` history ring is
bumped by `tr_historyAdd (.., 1)`, and the blocks handed to
`pieceListRemoveRequest` (which decrements the piece's `requestCount` and
re-positions it in the weighted list).  The guard `it->peer && it->peer->msgs`
of the message loop is always true for cancel-buffer entries, whose
selection already dereferenced `it->peer->msgs`. -/
structure RefillResult where
  kept : List block_request
  cancelled : List block_request
  cancelMessages : List (Nat × Nat)
  historyIncrements : List Nat
  pieceRequestDecrements : List Nat
deriving DecidableEq

/-- The per-torrent body of `refillUpkeep` at wall-clock `now`. -/
def refillUpkeep (now : Int) (msgsOf : Nat → Option PeerMsgsView) (tor : TorLayout)
    (requests : List block_request) : RefillResult :=
  let cancelled := requests.filter (refillCancelTest now msgsOf tor)
  { kept := requests.filter (fun r => !(refillCancelTest now msgsOf tor r))
    cancelled := cancelled
    cancelMessages := cancelled.map (fun r => (r.peerId, r.block))
    historyIncrements := cancelled.map block_request.peerId
    pieceRequestDecrements := cancelled.map block_request.block }

/-- Claim C3 counterexample: peer 0 is mid-way through receiving a Piece
payload (parser state `AWAITING_BT_PIECE`, incoming block 4), yet its
120-second-old request for block 0 is cancelled — the mid-receive exemption
holds per block, not per peer, so the claim's "requests to peers in
mid-piece receive are kept unchanged" fails. -/
theorem C3_counterexample :
    (tr_peerMsgsIsReadingBlock ⟨4, 16384⟩ ⟨PMState.awaitingBtPiece, 1, 0⟩ 4 = true) ∧
    (120 : Int) - (0 : Int) ≥ REQUEST_TTL_SECS ∧
    refillUpkeep 120 (fun _ => some ⟨PMState.awaitingBtPiece, 1, 0⟩) ⟨4, 16384⟩
        [⟨0, 0, 0⟩] =
      { kept := [], cancelled := [⟨0, 0, 0⟩], cancelMessages := [(0, 0)],
        historyIncrements := [0], pieceRequestDecrements := [0] } := by
  refine ⟨by decide, by decide, ?_⟩
  rfl

/-- Claim C3, amended: on a refill-upkeep pass an outstanding request is
cancelled — removed from the ledger, answered with a `Cancel` message, its
peer's cancels-sent ring bumped and its piece's request count decremented
and re-positioned — iff it is at least `REQUEST_TTL_SECS` old, its peer has
a wire session, and that session is not mid-way through receiving exactly
this request's block; younger requests, requests of peers with no wire
session, and the one request whose own block is being received are kept. -/
theorem C3_amended (now : Int) (msgsOf : Nat → Option PeerMsgsView) (tor : TorLayout)
    (requests : List block_request) :
    (∀ r, r ∈ (refillUpkeep now msgsOf tor requests).cancelled ↔
        r ∈ requests ∧ r.sentAt ≤ now - REQUEST_TTL_SECS ∧
          ∃ m, msgsOf r.peerId = some m ∧ tr_peerMsgsIsReadingBlock tor m r.block = false) ∧
    (∀ r, r ∈ (refillUpkeep now msgsOf tor requests).kept ↔
        r ∈ requests ∧ (now - REQUEST_TTL_SECS < r.sentAt ∨ msgsOf r.peerId = none ∨
          ∃ m, msgsOf r.peerId = some m ∧ tr_peerMsgsIsReadingBlock tor m r.block = true)) ∧
    (refillUpkeep now msgsOf tor requests).cancelMessages =
      (refillUpkeep now msgsOf tor requests).cancelled.map (fun r => (r.peerId, r.block)) ∧
    (refillUpkeep now msgsOf tor requests).historyIncrements =
      (refillUpkeep now msgsOf tor requests).cancelled.map block_request.peerId ∧
    (refillUpkeep now msgsOf tor requests).pieceRequestDecrements =
      (refillUpkeep now msgsOf tor requests).cancelled.map block_request.block := by
  refine ⟨?_, ?_, rfl, rfl, rfl⟩
  · intro r
    simp only [refillUpkeep, List.mem_filter, refillCancelTest, Bool.and_eq_true,
      decide_eq_true_eq]
    refine and_congr_right fun _ => and_congr_right fun _ => ?_
    cases h : msgsOf r.peerId with
    | none => simp
    | some m => simp [Bool.not_eq_true']
  · intro r
    simp only [refillUpkeep, List.mem_filter, refillCancelTest, Bool.not_eq_true',
      Bool.and_eq_false_iff, decide_eq_false_iff_not, not_le]
    refine and_congr_right fun _ => ?_
    cases h : msgsOf r.peerId with
    | none => simp
    | some m => simp [Bool.not_eq_false']

/-! ## Weighted-piece ordering (`comparePieceByWeight` / `pieceListSort`) -/

/-- A `struct weighted_piece`: piece index, random 16-bit salt, and the
number of outstanding requests inside the piece. -/
structure weighted_piece where
  index : Nat
  salt : Nat
  requestCount : Nat
deriving DecidableEq

/-- The torrent-side context read by `comparePieceByWeight` through the
`weightTorrent` / `weightReplication` statics: block count per piece, the
completion store's missing-block count per piece, the declared file priority
per piece, and the replication count per piece. -/
structure WeightCfg where
  blockCountInPiece : Nat
  missingBlocks : Nat → Nat
  priority : Nat → Int
  replication : Nat → Nat

/-- The primary weight key of `comparePieceByWeight`:
`missing > pending ? missing - pending : blockCountInPiece + pending`. -/
def pieceWeight (cfg : WeightCfg) (p : weighted_piece) : Nat :=
  let missing := cfg.missingBlocks p.index
  let pending := p.requestCount
  if missing > pending then missing - pending else cfg.blockCountInPiece + pending

/-- `comparePieceByWeight`: weight ascending, then priority descending, then
replication ascending (rarest first), then salt ascending. -/
def comparePieceByWeight (cfg : WeightCfg) (a b : weighted_piece) : Int :=
  if pieceWeight cfg a < pieceWeight cfg b then -1
  else if pieceWeight cfg a > pieceWeight cfg b then 1
  else if cfg.priority a.index > cfg.priority b.index then -1
  else if cfg.priority a.index < cfg.priority b.index then 1
  else if cfg.replication a.index < cfg.replication b.index then -1
  else if cfg.replication a.index > cfg.replication b.index then 1
  else if a.salt < b.salt then -1
  else if a.salt > b.salt then 1
  else 0

/-- Order induced by the comparator (`comparePieceByWeight ≤ 0`), the sense
in which `qsort` leaves adjacent elements ordered. -/
def pieceByWeightLe (cfg : WeightCfg) (a b : weighted_piece) : Prop :=
  comparePieceByWeight cfg a b ≤ 0

instance pieceByWeightLeDec (cfg : WeightCfg) : DecidableRel (pieceByWeightLe cfg) :=
  fun a b => inferInstanceAs (Decidable (comparePieceByWeight cfg a b ≤ 0))

/-- The compound ordering spelled out: fewest missing-minus-pending blocks
first, with pieces whose pending requests reach or exceed their missing
blocks pushed to the back under the key `blockCountInPiece + pending`; ties
broken by higher priority, then lower replication, then lower salt. -/
def compoundWeightOrder (cfg : WeightCfg) (a b : weighted_piece) : Prop :=
  pieceWeight cfg a < pieceWeight cfg b ∨
    (pieceWeight cfg a = pieceWeight cfg b ∧
      (cfg.priority b.index < cfg.priority a.index ∨
        (cfg.priority a.index = cfg.priority b.index ∧
          (cfg.replication a.index < cfg.replication b.index ∨
            (cfg.replication a.index = cfg.replication b.index ∧ a.salt ≤ b.salt)))))

theorem pieceByWeightLe_iff (cfg : WeightCfg) (a b : weighted_piece) :
    pieceByWeightLe cfg a b ↔ compoundWeightOrder cfg a b := by
  unfold pieceByWeightLe comparePieceByWeight compoundWeightOrder
  split_ifs <;> omega

theorem pieceByWeightLe_total (cfg : WeightCfg) (a b : weighted_piece) :
    pieceByWeightLe cfg a b ∨ pieceByWeightLe cfg b a := by
  rw [pieceByWeightLe_iff, pieceByWeightLe_iff]
  unfold compoundWeightOrder
  omega

theorem pieceByWeightLe_trans (cfg : WeightCfg) (a b c : weighted_piece) :
    pieceByWeightLe cfg a b → pieceByWeightLe cfg b c → pieceByWeightLe cfg a c := by
  rw [pieceByWeightLe_iff, pieceByWeightLe_iff, pieceByWeightLe_iff]
  unfold compoundWeightOrder
  omega

instance pieceByWeightLeIsTotal (cfg : WeightCfg) :
    IsTotal weighted_piece (pieceByWeightLe cfg) :=
  ⟨pieceByWeightLe_total cfg⟩

instance pieceByWeightLeIsTrans (cfg : WeightCfg) :
    IsTrans weighted_piece (pieceByWeightLe cfg) :=
  ⟨pieceByWeightLe_trans cfg⟩

/-- `pieceListSort (t, PIECES_SORTED_BY_WEIGHT)`: the `qsort` by
`comparePieceByWeight`, modelled as a comparison sort with the same
comparator (the sorted-by-weight state is characterised by the comparator,
not by the sorting algorithm). -/
def pieceListSort (cfg : WeightCfg) (pieces : List weighted_piece) : List weighted_piece :=
  List.insertionSort (pieceByWeightLe cfg) pieces

/-- The primary key as the claim words it: only a piece with strictly more
pending requests than missing blocks goes to the back group.  (The code uses
the back-group key already when pending merely equals missing.) -/
def claimWeightKey (cfg : WeightCfg) (p : weighted_piece) : Nat :=
  if cfg.missingBlocks p.index < p.requestCount then cfg.blockCountInPiece + p.requestCount
  else cfg.missingBlocks p.index - p.requestCount

/-- The claim's compound ordering: fewest missing-minus-pending first (back
group only for strictly more pending than missing), then higher priority,
then lower replication, then lower salt. -/
def claimCompoundOrder (cfg : WeightCfg) (a b : weighted_piece) : Bool :=
  decide (claimWeightKey cfg a < claimWeightKey cfg b) ||
    (decide (claimWeightKey cfg a = claimWeightKey cfg b) &&
      (decide (cfg.priority b.index < cfg.priority a.index) ||
        (decide (cfg.priority a.index = cfg.priority b.index) &&
          (decide (cfg.replication a.index < cfg.replication b.index) ||
            (decide (cfg.replication a.index = cfg.replication b.index) &&
              decide (a.salt ≤ b.salt))))))

/-- A two-piece torrent refuting the claim's ordering: with 4 blocks per
piece, uniform priority and replication, piece 0 has 1 missing block and 1
pending request, piece 1 has 2 missing and none pending. -/
def weightCfgCE : WeightCfg :=
  ⟨4, fun i => if i = 0 then 1 else 2, fun _ => 0, fun _ => 0⟩

/-- Claim C6 counterexample: piece 0 has 1 missing block and 1 pending
request — pending equals missing, not "more pending than missing", so under
the claim's ordering its primary key is `1 - 1 = 0` and it belongs in
front — yet the code's comparator sends it to the back group with key
`blockCountInPiece + pending = 5`, behind piece 1 (2 missing, key 2).  The
sorted-by-weight state therefore violates the claim's pairwise ordering. -/
theorem C6_counterexample :
    pieceListSort weightCfgCE [⟨0, 0, 1⟩, ⟨1, 1, 0⟩] = [⟨1, 1, 0⟩, ⟨0, 0, 1⟩] ∧
    claimCompoundOrder weightCfgCE ⟨1, 1, 0⟩ ⟨0, 0, 1⟩ = false ∧
    ¬ List.Chain' (fun a b => claimCompoundOrder weightCfgCE a b = true)
        (pieceListSort weightCfgCE [⟨0, 0, 1⟩, ⟨1, 1, 0⟩]) := by
  refine ⟨rfl, rfl, ?_⟩
  have h1 : pieceListSort weightCfgCE [⟨0, 0, 1⟩, ⟨1, 1, 0⟩] = [⟨1, 1, 0⟩, ⟨0, 0, 1⟩] := rfl
  rw [h1, List.chain'_pair]
  decide

/-- Claim C6, amended: whenever the weighted-piece list is in the
sorted-by-weight state (the result of `pieceListSort` by
`comparePieceByWeight`), every adjacent pair satisfies the compound
ordering — fewest missing-minus-pending first, where a piece whose pending
requests reach **or exceed** its missing blocks is pushed to the back with
key `blockCountInPiece + pending`, then higher priority, then lower
replication, then lower salt. -/
theorem C6_amended (cfg : WeightCfg) (pieces : List weighted_piece) :
    List.Chain' (compoundWeightOrder cfg) (pieceListSort cfg pieces) := by
  have h := List.sorted_insertionSort (pieceByWeightLe cfg) pieces
  exact (h.imp fun hab => (pieceByWeightLe_iff cfg _ _).1 hab).chain'

/-! ## Interest rechoke (`rechokeDownloads` / `compare_rechoke_info`) -/

def RECHOKE_STATE_GOOD : Nat := 0
def RECHOKE_STATE_UNTESTED : Nat := 1
def RECHOKE_STATE_BAD : Nat := 2

/-- The history window (seconds) over which blocks and cancels are counted. -/
def CANCEL_HISTORY_SEC : Nat := 60

/-- The classification cascade of `rechokeDownloads` for a candidate peer,
from its last-`CANCEL_HISTORY_SEC` counts of blocks received
(`blocksSentToClient`) and cancels sent (`cancelsSentToPeer`). -/
def rechokeStateFor (blocks cancels : Nat) : Nat :=
  if blocks = 0 ∧ cancels = 0 then RECHOKE_STATE_UNTESTED
  else if cancels = 0 then RECHOKE_STATE_GOOD
  else if blocks = 0 then RECHOKE_STATE_BAD
  else if cancels * 10 < blocks then RECHOKE_STATE_GOOD
  else RECHOKE_STATE_BAD

/-- A `struct tr_rechoke_info` (the peer represented by a numeric id). -/
structure tr_rechoke_info where
  peerId : Nat
  salt : Nat
  rechoke_state : Nat
deriving DecidableEq

/-- `compare_rechoke_info`: by classification, then by random salt. -/
def compare_rechoke_info (a b : tr_rechoke_info) : Int :=
  if a.rechoke_state ≠ b.rechoke_state
  then (a.rechoke_state : Int) - (b.rechoke_state : Int)
  else (a.salt : Int) - (b.salt : Int)

/-- Order induced by the comparator (`compare_rechoke_info ≤ 0`). -/
def rechokeInfoLe (a b : tr_rechoke_info) : Prop :=
  compare_rechoke_info a b ≤ 0

instance rechokeInfoLeDec : DecidableRel rechokeInfoLe :=
  fun a b => inferInstanceAs (Decidable (compare_rechoke_info a b ≤ 0))

theorem rechokeInfoLe_iff (a b : tr_rechoke_info) :
    rechokeInfoLe a b ↔
      a.rechoke_state < b.rechoke_state ∨
        (a.rechoke_state = b.rechoke_state ∧ a.salt ≤ b.salt) := by
  unfold rechokeInfoLe compare_rechoke_info
  split_ifs <;> omega

instance rechokeInfoLeIsTotal : IsTotal tr_rechoke_info rechokeInfoLe :=
  ⟨fun a b => by rw [rechokeInfoLe_iff, rechokeInfoLe_iff]; omega⟩

instance rechokeInfoLeIsTrans : IsTrans tr_rechoke_info rechokeInfoLe :=
  ⟨fun a b c => by
    rw [rechokeInfoLe_iff, rechokeInfoLe_iff, rechokeInfoLe_iff]
    omega⟩

/-- The `qsort (rechoke, rechoke_count, .., compare_rechoke_info)` of
`rechokeDownloads`, modelled as a comparison sort with the same
comparator. -/
def rechokeDownloadsSort (l : List tr_rechoke_info) : List tr_rechoke_info :=
  List.insertionSort rechokeInfoLe l

/-- The final loop of `rechokeDownloads`: after sorting, the peer at
position `i` is declared Interested iff `i < interestedCount` where
`interestedCount = MIN (maxPeers, rechoke_count)`. -/
def rechokeDownloadsInterest (maxPeers : Nat) (l : List tr_rechoke_info) :
    List (tr_rechoke_info × Bool) :=
  let sorted := rechokeDownloadsSort l
  let interestedCount := min maxPeers sorted.length
  sorted.enum.map (fun p => (p.2, decide (p.1 < interestedCount)))

/-- Claim C7: candidates are classified untested (no blocks and no cancels),
good (otherwise, no cancels or ten times the cancels below the blocks) or
bad (otherwise); sorting with `compare_rechoke_info` puts good before
untested before bad (salt being the random tie-break); and exactly the first
`min maxPeers count` sorted candidates are declared Interested, the rest
NotInterested. -/
theorem C7_rechoke_downloads :
    (∀ blocks cancels : Nat,
        (rechokeStateFor blocks cancels = RECHOKE_STATE_UNTESTED ↔
          blocks = 0 ∧ cancels = 0) ∧
        (rechokeStateFor blocks cancels = RECHOKE_STATE_GOOD ↔
          ¬(blocks = 0 ∧ cancels = 0) ∧ (cancels = 0 ∨ cancels * 10 < blocks)) ∧
        (rechokeStateFor blocks cancels = RECHOKE_STATE_BAD ↔
          ¬(blocks = 0 ∧ cancels = 0) ∧ ¬(cancels = 0 ∨ cancels * 10 < blocks))) ∧
    (∀ l : List tr_rechoke_info,
        List.Chain' (fun a b => a.rechoke_state ≤ b.rechoke_state)
          (rechokeDownloadsSort l)) ∧
    (∀ (maxPeers : Nat) (l : List tr_rechoke_info),
        (rechokeDownloadsInterest maxPeers l).map Prod.snd =
          (List.range l.length).map (fun i => decide (i < min maxPeers l.length))) := by
  refine ⟨?_, ?_, ?_⟩
  · intro blocks cancels
    by_cases hb : blocks = 0 <;> by_cases hc : cancels = 0 <;>
      by_cases hlt : cancels * 10 < blocks <;>
        simp [rechokeStateFor, RECHOKE_STATE_GOOD, RECHOKE_STATE_UNTESTED,
          RECHOKE_STATE_BAD, hb, hc, hlt]
  · intro l
    have h := List.sorted_insertionSort rechokeInfoLe l
    refine List.Pairwise.chain' (h.imp fun hab => ?_)
    have := (rechokeInfoLe_iff _ _).1 hab
    omega
  · intro maxPeers l
    unfold rechokeDownloadsInterest
    have hlen : (rechokeDownloadsSort l).length = l.length :=
      List.length_insertionSort rechokeInfoLe l
    rw [List.map_map]
    have henum : ((rechokeDownloadsSort l).enum.map
          (fun p : Nat × tr_rechoke_info =>
            decide (p.1 < min maxPeers (rechokeDownloadsSort l).length))) =
        ((rechokeDownloadsSort l).enum.map Prod.fst).map
          (fun i => decide (i < min maxPeers (rechokeDownloadsSort l).length)) := by
      rw [List.map_map]
      rfl
    calc ((rechokeDownloadsSort l).enum.map
            ((fun p : tr_rechoke_info × Bool => p.2) ∘
              fun p : Nat × tr_rechoke_info =>
                (p.2, decide (p.1 < min maxPeers (rechokeDownloadsSort l).length))))
        = ((rechokeDownloadsSort l).enum.map Prod.fst).map
            (fun i => decide (i < min maxPeers (rechokeDownloadsSort l).length)) := by
          rw [← henum]
          rfl
      _ = (List.range l.length).map (fun i => decide (i < min maxPeers l.length)) := by
          rw [List.enum_map_fst, hlen]
